import Mathlib

/-!
Verification of the financial-data-visualiser repository.

The SQLite table `economic_data` is modelled as a list of rows, REAL values
as rationals, and each cleaning / derivation script as a pure function on
that model, translated from the Python sources under `scripts/` and from
`app.py`.
-/

namespace FDV

/-- A stored observation of the `economic_data` table: primary key
(country, time_period, metric_name) plus value and metadata
(scripts/init_database.py, lines 35-46).  REAL values are rationals. -/
structure Row where
  country : String
  time_period : String
  metric_name : String
  value : ℚ
  unit : String
  source : String
  last_updated : String
deriving DecidableEq

instance : Inhabited Row := ⟨⟨"", "", "", 0, "", "", ""⟩⟩

/-- The primary key of a row (init_database.py line 44). -/
def Row.key (r : Row) : String × String × String :=
  (r.country, r.time_period, r.metric_name)

/-- One (time_period, value) observation of a single country's series, as
the cleaning scripts hold it in memory. -/
structure DataPoint where
  time_period : String
  value : ℚ
deriving DecidableEq

instance : Inhabited DataPoint := ⟨⟨"", 0⟩⟩

/-- `parse_quarter` as defined identically in the cleaning scripts: split
on "-Q", read the two integers, and return (0, 0) on any failure. -/
def parse_quarter (s : String) : Int × Int :=
  match s.splitOn "-Q" with
  | [y, q] =>
    match y.toInt?, q.toInt? with
    | some a, some b => (a, b)
    | _, _ => (0, 0)
  | _ => (0, 0)

/-- Python tuple comparison (lexicographic) on parsed quarters, as used by
`data_points.sort(key=lambda x: parse_quarter(x['time_period']))`. -/
def quarter_le (a b : DataPoint) : Bool :=
  decide ((parse_quarter a.time_period).1 < (parse_quarter b.time_period).1 ∨
    ((parse_quarter a.time_period).1 = (parse_quarter b.time_period).1 ∧
     (parse_quarter a.time_period).2 ≤ (parse_quarter b.time_period).2))

/-- The per-country in-memory series a cleaning script builds for one
metric: the rows of that metric and country, sorted by `parse_quarter`
(SELECT ... WHERE metric_name = ? ORDER BY country, time_period, grouped
by country, then data_points.sort(key=parse_quarter)). -/
def seriesFor (db : List Row) (metric country : String) : List DataPoint :=
  ((db.filter (fun r => decide (r.metric_name = metric ∧ r.country = country))).map
    (fun r => ⟨r.time_period, r.value⟩)).mergeSort quarter_le

/-- Percentage change from `prev` to `curr`: ((curr - prev) / prev) * 100. -/
def pct_change (prev curr : ℚ) : ℚ := (curr - prev) / prev * 100

/-- The outlier decision of `filter_outliers_selective` on the values
(prev, curr, next) surrounding one interior point
(scripts/filter_outliers_selective.py lines 93-142): skip non-positive
values, then test spike-and-revert, drop-and-recover, and the isolated
outlier pattern (both changes extreme and the value more than 30% away
from the average of the two neighbours), in this order. -/
def isOutlierTriple (t prev curr next : ℚ) : Bool :=
  if prev ≤ 0 ∨ curr ≤ 0 ∨ next ≤ 0 then false
  else if pct_change prev curr > t ∧ pct_change curr next < -t then true
  else if pct_change prev curr < -t ∧ pct_change curr next > t then true
  else if |pct_change prev curr| > t ∧ |pct_change curr next| > t then
    decide (|(curr - (prev + next) / 2) / ((prev + next) / 2) * 100| > 30)
  else false

/-- The indices `filter_outliers_selective` marks for deletion in one
country's sorted series (lines 84-142): series with fewer than 3 points
are skipped, and i ranges over 1 .. length - 2. -/
def outlierIdxs (t : ℚ) (pts : List DataPoint) : List Nat :=
  if pts.length < 3 then []
  else ((List.range (pts.length - 2)).map (fun j => j + 1)).filter
    (fun i => isOutlierTriple t (pts.getD (i - 1) default).value
      (pts.getD i default).value (pts.getD (i + 1) default).value)

/-- Helper: the boolean outlier decision, unfolded to the three patterns,
on positive values. -/
theorem isOutlierTriple_iff (t prev curr next : ℚ)
    (hp : 0 < prev) (hc : 0 < curr) (hn : 0 < next) :
    isOutlierTriple t prev curr next = true ↔
      (pct_change prev curr > t ∧ pct_change curr next < -t) ∨
      (pct_change prev curr < -t ∧ pct_change curr next > t) ∨
      (|pct_change prev curr| > t ∧ |pct_change curr next| > t ∧
        |(curr - (prev + next) / 2) / ((prev + next) / 2) * 100| > 30) := by
  unfold isOutlierTriple
  rw [if_neg (by push_neg; exact ⟨hp, hc, hn⟩)]
  split_ifs with h2 h3 h4
  · simp [h2]
  · simp [h3]
  · simp only [decide_eq_true_eq]
    constructor
    · intro h; exact Or.inr (Or.inr ⟨h4.1, h4.2, h⟩)
    · rintro (h | h | h)
      · exact absurd h h2
      · exact absurd h h3
      · exact h.2.2
  · simp only [Bool.false_eq_true, false_iff]
    rintro (h | h | h)
    · exact h2 h
    · exact h3 h
    · exact h4 ⟨h.1, h.2.1⟩

example : isOutlierTriple 20 100 150 100 = true := by
  norm_num [isOutlierTriple, pct_change]
example : isOutlierTriple 20 100 110 100 = false := by
  norm_num [isOutlierTriple, pct_change]

/-- C1: in a country's chronologically sorted series with at least 3
observations and positive values around an interior index i,
filter_outliers_selective marks observation i for deletion if and only if
one of the three patterns holds: spike-and-revert (change from the
predecessor above +threshold and change to the successor below
-threshold), drop-and-recover (the mirrored pattern), or isolated outlier
(both adjacent changes extreme in magnitude and the value more than 30%
away from the average of the two neighbours). -/
theorem C1_filter_outliers_selective_patterns (t : ℚ) (pts : List DataPoint) (i : Nat)
    (h1 : 1 ≤ i) (h2 : i + 1 < pts.length)
    (hp : 0 < (pts.getD (i - 1) default).value)
    (hc : 0 < (pts.getD i default).value)
    (hn : 0 < (pts.getD (i + 1) default).value) :
    i ∈ outlierIdxs t pts ↔
      (pct_change (pts.getD (i - 1) default).value (pts.getD i default).value > t ∧
       pct_change (pts.getD i default).value (pts.getD (i + 1) default).value < -t) ∨
      (pct_change (pts.getD (i - 1) default).value (pts.getD i default).value < -t ∧
       pct_change (pts.getD i default).value (pts.getD (i + 1) default).value > t) ∨
      (|pct_change (pts.getD (i - 1) default).value (pts.getD i default).value| > t ∧
       |pct_change (pts.getD i default).value (pts.getD (i + 1) default).value| > t ∧
       |((pts.getD i default).value -
          ((pts.getD (i - 1) default).value + (pts.getD (i + 1) default).value) / 2) /
         (((pts.getD (i - 1) default).value + (pts.getD (i + 1) default).value) / 2) *
         100| > 30) := by
  rw [← isOutlierTriple_iff t _ _ _ hp hc hn]
  unfold outlierIdxs
  rw [if_neg (by omega)]
  simp only [List.mem_filter, List.mem_map, List.mem_range]
  constructor
  · rintro ⟨-, h⟩
    exact h
  · intro h
    exact ⟨⟨i - 1, by omega, by omega⟩, h⟩

/-- C1 witness: with threshold 20, the middle point of the concrete series
(100, 150, 100) matches the spike-and-revert pattern and is marked. -/
theorem C1_witness :
    1 ∈ outlierIdxs 20
      [⟨"2000-Q1", 100⟩, ⟨"2000-Q2", 150⟩, ⟨"2000-Q3", 100⟩] := by
  refine (C1_filter_outliers_selective_patterns 20
    [⟨"2000-Q1", 100⟩, ⟨"2000-Q2", 150⟩, ⟨"2000-Q3", 100⟩] 1
    (by norm_num) (by norm_num)
    (by norm_num [List.getD_cons_zero])
    (by norm_num [List.getD_cons_succ, List.getD_cons_zero])
    (by norm_num [List.getD_cons_succ, List.getD_cons_zero])).mpr ?_
  left
  norm_num [List.getD_cons_succ, List.getD_cons_zero, pct_change]

/-! ## filter_level_shifts (scripts/filter_level_shifts.py) -/

/-- Indices of the sorted series where filter_level_shifts records an
extreme quarter-over-quarter change (lines 79-91): i in 1 .. length - 1
with positive previous value and |pct_change| above the threshold. -/
def extremeIdxs (t : ℚ) (vals : List ℚ) : List Nat :=
  ((List.range (vals.length - 1)).map (fun j => j + 1)).filter
    (fun i => decide (0 < vals.getD (i - 1) 0 ∧
      |pct_change (vals.getD (i - 1) 0) (vals.getD i 0)| > t))

/-- A segment of consecutive observations between extreme changes
(filter_level_shifts.py lines 96-122): index range [start_idx, end_idx),
length, average value, and the time periods of its points. -/
structure Segment where
  start_idx : Nat
  end_idx : Nat
  length : Nat
  avg_value : ℚ
  periods : List String
deriving DecidableEq

instance : Inhabited Segment := ⟨⟨0, 0, 0, 0, []⟩⟩

/-- The segment of `pts` covering indices [s, e)
(filter_level_shifts.py lines 101-109 and 114-122). -/
def mkSegment (pts : List DataPoint) (s e : Nat) : Segment :=
  let seg := (pts.drop s).take (e - s)
  { start_idx := s
    end_idx := e
    length := seg.length
    avg_value := (seg.map (fun p => p.value)).sum / (seg.length : ℚ)
    periods := seg.map (fun p => p.time_period) }

/-- The loop of filter_level_shifts.py lines 96-122: walk the sorted
extreme-change indices, closing a segment at each one (skipped when
empty), then append the final segment running to the end of the series. -/
def buildSegmentsAux (pts : List DataPoint) (start : Nat) : List Nat → List Segment
  | [] => if start < pts.length then [mkSegment pts start pts.length] else []
  | e :: es =>
    if start < e then mkSegment pts start e :: buildSegmentsAux pts e es
    else buildSegmentsAux pts e es

def buildSegments (pts : List DataPoint) (es : List Nat) : List Segment :=
  buildSegmentsAux pts 0 es

/-- Maximal segment length occurring in the list. -/
def maxSegLen (segs : List Segment) : Nat :=
  (segs.map (fun s => s.length)).foldr max 0

/-- Index of the first segment of maximal length.  Python sorts the
segment list by length, descending; list.sort is stable, so the head of
the sorted list is the first segment attaining the maximal length and its
tail is, as a multiset, the list of remaining segments.  Only the head
and that multiset are used afterwards, so the sort is modelled by this
index. -/
def mainSegIdx (segs : List Segment) : Nat :=
  segs.findIdx (fun s => decide (s.length = maxSegLen segs))

/-- The segments filter_level_shifts builds for one country's sorted
series. -/
def levelShiftSegs (t : ℚ) (pts : List DataPoint) : List Segment :=
  buildSegments pts (extremeIdxs t (pts.map (fun p => p.value)))

/-- The time periods filter_level_shifts marks for deletion in one
country's sorted series (lines 71-141): nothing for series shorter than
10 points or with fewer than 2 extreme changes; otherwise all periods of
the segments, other than the main (longest) one, whose average value
differs from the main segment's average by more than 40%. -/
def levelShiftPeriods (t : ℚ) (pts : List DataPoint) : List String :=
  if pts.length < 10 then []
  else
    if (extremeIdxs t (pts.map (fun p => p.value))).length < 2 then []
    else
      if (levelShiftSegs t pts).length ≤ 1 then []
      else
        ((((List.range (levelShiftSegs t pts).length).filter
            (fun j => decide (j ≠ mainSegIdx (levelShiftSegs t pts)))).filter
          (fun j => decide (|(((levelShiftSegs t pts).getD j default).avg_value -
              ((levelShiftSegs t pts).getD (mainSegIdx (levelShiftSegs t pts))
                default).avg_value) /
            ((levelShiftSegs t pts).getD (mainSegIdx (levelShiftSegs t pts))
              default).avg_value * 100| > 40))).map
          (fun j => ((levelShiftSegs t pts).getD j default).periods)).flatten

/-- Helper: recorded extreme-change indices are interior (1 .. length-1). -/
theorem extremeIdxs_mem (t : ℚ) (vals : List ℚ) :
    ∀ e ∈ extremeIdxs t vals, 1 ≤ e ∧ e < vals.length := by
  intro e he
  unfold extremeIdxs at he
  simp only [List.mem_filter, List.mem_map, List.mem_range] at he
  obtain ⟨⟨j, hj, rfl⟩, -⟩ := he
  omega

/-- Helper: extreme-change indices are strictly increasing. -/
theorem extremeIdxs_sorted (t : ℚ) (vals : List ℚ) :
    (extremeIdxs t vals).Pairwise (· < ·) := by
  unfold extremeIdxs
  refine List.Pairwise.sublist (List.filter_sublist _) ?_
  rw [List.pairwise_map]
  exact (List.pairwise_lt_range _).imp (by omega)

/-- Helper: with strictly increasing interior boundaries, the segment loop
produces one more segment than there are boundaries. -/
theorem buildSegmentsAux_length (pts : List DataPoint) :
    ∀ (es : List Nat) (start : Nat), es.Pairwise (· < ·) →
      (∀ e ∈ es, e < pts.length) → (∀ e ∈ es, start < e) → start < pts.length →
      (buildSegmentsAux pts start es).length = es.length + 1 := by
  intro es
  induction es with
  | nil =>
    intro start _ _ _ hs
    simp [buildSegmentsAux, hs]
  | cons e es ih =>
    intro start hpw hlt hgt hs
    rw [List.pairwise_cons] at hpw
    have h1 : start < e := hgt e (List.mem_cons_self e es)
    simp only [buildSegmentsAux, if_pos h1, List.length_cons]
    rw [ih e hpw.2 (fun x hx => hlt x (List.mem_cons_of_mem _ hx))
      (fun x hx => hpw.1 x hx) (hlt e (List.mem_cons_self e es))]

/-- Helper: every produced segment is a slice of the series, and the
segments cover pairwise disjoint, increasing index ranges. -/
theorem buildSegmentsAux_spec (pts : List DataPoint) :
    ∀ (es : List Nat) (start : Nat), es.Pairwise (· < ·) →
      (∀ e ∈ es, e ≤ pts.length) → (∀ e ∈ es, start < e) →
      (∀ s ∈ buildSegmentsAux pts start es,
          start ≤ s.start_idx ∧ s.start_idx < s.end_idx ∧ s.end_idx ≤ pts.length ∧
          s = mkSegment pts s.start_idx s.end_idx) ∧
      (buildSegmentsAux pts start es).Pairwise
        (fun s1 s2 => s1.end_idx ≤ s2.start_idx) := by
  intro es
  induction es with
  | nil =>
    intro start _ _ _
    constructor
    · intro s hs
      simp only [buildSegmentsAux] at hs
      split at hs
      · rcases List.mem_singleton.mp hs with rfl
        exact ⟨by simp [mkSegment], by simpa [mkSegment], by simp [mkSegment],
          by simp [mkSegment]⟩
      · cases hs
    · simp only [buildSegmentsAux]
      split
      · simp
      · simp
  | cons e es ih =>
    intro start hpw hle hgt
    rw [List.pairwise_cons] at hpw
    have h1 : start < e := hgt e (List.mem_cons_self e es)
    have ihe := ih e hpw.2 (fun x hx => hle x (List.mem_cons_of_mem _ hx)) hpw.1
    simp only [buildSegmentsAux, if_pos h1]
    constructor
    · intro s hs
      rcases List.mem_cons.mp hs with rfl | hs
      · exact ⟨by simp [mkSegment], by simpa [mkSegment],
          by simpa [mkSegment] using hle e (List.mem_cons_self e es),
          by simp [mkSegment]⟩
      · obtain ⟨ha, hb, hc2, hd⟩ := ihe.1 s hs
        exact ⟨le_trans (le_of_lt h1) ha, hb, hc2, hd⟩
    · rw [List.pairwise_cons]
      refine ⟨?_, ihe.2⟩
      intro s hs
      have := (ihe.1 s hs).1
      simpa [mkSegment] using this

/-- Helper: membership in the period list of a slice segment. -/
theorem mem_mkSegment_periods (pts : List DataPoint) (a b : Nat) (hb : b ≤ pts.length)
    (p : String) :
    p ∈ (mkSegment pts a b).periods ↔
      ∃ i, a ≤ i ∧ i < b ∧ (pts.getD i default).time_period = p := by
  simp only [mkSegment, List.mem_map]
  constructor
  · rintro ⟨q, hq, rfl⟩
    rw [List.mem_iff_getElem] at hq
    obtain ⟨n, hn, rfl⟩ := hq
    have hlen : n < ((pts.drop a).take (b - a)).length := hn
    rw [List.length_take, List.length_drop] at hlen
    refine ⟨a + n, by omega, by omega, ?_⟩
    rw [List.getD_eq_getElem _ _ (by omega), List.getElem_take, List.getElem_drop]
  · rintro ⟨i, hai, hib, hp⟩
    obtain ⟨k, rfl⟩ : ∃ k, i = a + k := ⟨i - a, by omega⟩
    refine ⟨pts.getD (a + k) default, ?_, hp⟩
    rw [List.mem_iff_getElem]
    refine ⟨k, ?_, ?_⟩
    · rw [List.length_take, List.length_drop]
      omega
    · rw [List.getElem_take, List.getElem_drop, List.getD_eq_getElem _ _ (by omega)]

/-- Helper: every segment length is bounded by the maximal one. -/
theorem le_maxSegLen : ∀ (segs : List Segment), ∀ s ∈ segs, s.length ≤ maxSegLen segs := by
  intro segs
  induction segs with
  | nil => intro s hs; cases hs
  | cons x l ih =>
    intro s hs
    unfold maxSegLen at *
    simp only [List.map_cons, List.foldr_cons]
    rcases List.mem_cons.mp hs with rfl | h
    · exact Nat.le_max_left _ _
    · exact le_trans (ih s h) (Nat.le_max_right _ _)

/-- Helper: the maximal segment length is attained. -/
theorem maxSegLen_attained : ∀ (segs : List Segment), segs ≠ [] →
    ∃ s ∈ segs, s.length = maxSegLen segs := by
  intro segs
  induction segs with
  | nil => intro h; exact absurd rfl h
  | cons x l ih =>
    intro _
    unfold maxSegLen at *
    simp only [List.map_cons, List.foldr_cons]
    rcases List.eq_nil_or_concat l with rfl | hne
    · exact ⟨x, List.mem_cons_self x [], by simp⟩
    · have hl : l ≠ [] := by
        obtain ⟨a, b, rfl⟩ := hne
        simp
      obtain ⟨s, hsmem, hs⟩ := ih hl
      by_cases hc : (List.map (fun s => s.length) l).foldr max 0 ≤ x.length
      · exact ⟨x, List.mem_cons_self x l, (Nat.max_eq_left hc).symm⟩
      · exact ⟨s, List.mem_cons_of_mem _ hsmem,
          by rw [hs]; exact (Nat.max_eq_right (le_of_not_le hc)).symm⟩

/-- Helper: the main-segment index is a valid index. -/
theorem mainSegIdx_lt (segs : List Segment) (h : segs ≠ []) :
    mainSegIdx segs < segs.length := by
  apply List.findIdx_lt_length_of_exists
  obtain ⟨s, hs, he⟩ := maxSegLen_attained segs h
  exact ⟨s, hs, by simp [he]⟩

/-- Helper: the main segment attains the maximal length. -/
theorem mainSegIdx_spec (segs : List Segment) (h : segs ≠ []) :
    (segs.getD (mainSegIdx segs) default).length = maxSegLen segs := by
  have hlt := mainSegIdx_lt segs h
  rw [List.getD_eq_getElem _ _ hlt]
  have hfi := List.findIdx_getElem (w := hlt)
  simpa using hfi

set_option maxHeartbeats 1000000 in
/-- C2: for each country, filter_level_shifts deletes nothing when the
sorted series has fewer than 10 observations or fewer than 2 extreme
quarter-over-quarter changes (|pct change| > threshold with positive
previous value); otherwise it partitions the series into segments at the
extreme-change boundaries, the main segment is one of maximal length, a
time period is deleted exactly when it lies in a non-main segment whose
average value differs from the main segment's average by more than 40%,
and (for duplicate-free period labels) no period of the main (longest)
segment is ever deleted. -/
theorem C2_filter_level_shifts (t : ℚ) (pts : List DataPoint) :
    (pts.length < 10 → levelShiftPeriods t pts = []) ∧
    ((extremeIdxs t (pts.map (fun q => q.value))).length < 2 →
      levelShiftPeriods t pts = []) ∧
    (10 ≤ pts.length → 2 ≤ (extremeIdxs t (pts.map (fun q => q.value))).length →
      (∀ j, j < (levelShiftSegs t pts).length →
          ((levelShiftSegs t pts).getD j default).length ≤
            ((levelShiftSegs t pts).getD (mainSegIdx (levelShiftSegs t pts))
              default).length) ∧
      (∀ p : String, p ∈ levelShiftPeriods t pts ↔
        ∃ j, j < (levelShiftSegs t pts).length ∧
          j ≠ mainSegIdx (levelShiftSegs t pts) ∧
          |(((levelShiftSegs t pts).getD j default).avg_value -
              ((levelShiftSegs t pts).getD (mainSegIdx (levelShiftSegs t pts))
                default).avg_value) /
            ((levelShiftSegs t pts).getD (mainSegIdx (levelShiftSegs t pts))
              default).avg_value * 100| > 40 ∧
          p ∈ ((levelShiftSegs t pts).getD j default).periods) ∧
      ((pts.map (fun q => q.time_period)).Nodup →
        ∀ p ∈ ((levelShiftSegs t pts).getD (mainSegIdx (levelShiftSegs t pts))
            default).periods,
          p ∉ levelShiftPeriods t pts)) := by
  refine ⟨?_, ?_, ?_⟩
  · intro h
    unfold levelShiftPeriods
    rw [if_pos h]
  · intro h
    unfold levelShiftPeriods
    by_cases h10 : pts.length < 10
    · rw [if_pos h10]
    · rw [if_neg h10, if_pos h]
  · intro h10 h2
    have hmem : ∀ e ∈ extremeIdxs t (pts.map (fun q => q.value)),
        1 ≤ e ∧ e < pts.length := by
      have h := extremeIdxs_mem t (pts.map (fun q => q.value))
      simpa using h
    have hsort := extremeIdxs_sorted t (pts.map (fun q => q.value))
    have hsegs : levelShiftSegs t pts =
        buildSegmentsAux pts 0 (extremeIdxs t (pts.map (fun q => q.value))) := rfl
    have hlen : (levelShiftSegs t pts).length =
        (extremeIdxs t (pts.map (fun q => q.value))).length + 1 := by
      rw [hsegs]
      exact buildSegmentsAux_length pts _ 0 hsort (fun e he => (hmem e he).2)
        (fun e he => (hmem e he).1) (by omega)
    have hne : levelShiftSegs t pts ≠ [] := by
      intro hh
      rw [hh] at hlen
      simp at hlen
    have hspec : (∀ s ∈ levelShiftSegs t pts,
          0 ≤ s.start_idx ∧ s.start_idx < s.end_idx ∧ s.end_idx ≤ pts.length ∧
          s = mkSegment pts s.start_idx s.end_idx) ∧
        (levelShiftSegs t pts).Pairwise (fun s1 s2 => s1.end_idx ≤ s2.start_idx) := by
      rw [hsegs]
      exact buildSegmentsAux_spec pts (extremeIdxs t (pts.map (fun q => q.value))) 0
        hsort (fun e he => le_of_lt (hmem e he).2) (fun e he => (hmem e he).1)
    have hmlt : mainSegIdx (levelShiftSegs t pts) < (levelShiftSegs t pts).length :=
      mainSegIdx_lt _ hne
    have hper : levelShiftPeriods t pts =
        ((((List.range (levelShiftSegs t pts).length).filter
            (fun j => decide (j ≠ mainSegIdx (levelShiftSegs t pts)))).filter
          (fun j => decide (|(((levelShiftSegs t pts).getD j default).avg_value -
              ((levelShiftSegs t pts).getD (mainSegIdx (levelShiftSegs t pts))
                default).avg_value) /
            ((levelShiftSegs t pts).getD (mainSegIdx (levelShiftSegs t pts))
              default).avg_value * 100| > 40))).map
          (fun j => ((levelShiftSegs t pts).getD j default).periods)).flatten := by
      unfold levelShiftPeriods
      rw [if_neg (by omega), if_neg (by omega), if_neg (by omega)]
    have hiff : ∀ p : String, p ∈ levelShiftPeriods t pts ↔
        ∃ j, j < (levelShiftSegs t pts).length ∧
          j ≠ mainSegIdx (levelShiftSegs t pts) ∧
          |(((levelShiftSegs t pts).getD j default).avg_value -
              ((levelShiftSegs t pts).getD (mainSegIdx (levelShiftSegs t pts))
                default).avg_value) /
            ((levelShiftSegs t pts).getD (mainSegIdx (levelShiftSegs t pts))
              default).avg_value * 100| > 40 ∧
          p ∈ ((levelShiftSegs t pts).getD j default).periods := by
      intro p
      rw [hper]
      simp only [List.mem_flatten, List.mem_map, List.mem_filter, List.mem_range,
        decide_eq_true_eq]
      constructor
      · rintro ⟨l, ⟨j, ⟨⟨hj, hjm⟩, hdiff⟩, rfl⟩, hp⟩
        exact ⟨j, hj, hjm, hdiff, hp⟩
      · rintro ⟨j, hj, hjm, hdiff, hp⟩
        exact ⟨_, ⟨j, ⟨⟨hj, hjm⟩, hdiff⟩, rfl⟩, hp⟩
    refine ⟨?_, hiff, ?_⟩
    · intro j hj
      rw [mainSegIdx_spec _ hne]
      apply le_maxSegLen
      rw [List.getD_eq_getElem _ _ hj]
      exact List.getElem_mem hj
    · intro hnd p hpmain hpdel
      obtain ⟨j, hj, hjm, hdiff, hpj⟩ := (hiff p).mp hpdel
      have hsj := hspec.1 ((levelShiftSegs t pts).getD j default)
        (by rw [List.getD_eq_getElem _ _ hj]; exact List.getElem_mem hj)
      have hsm := hspec.1 ((levelShiftSegs t pts).getD
          (mainSegIdx (levelShiftSegs t pts)) default)
        (by rw [List.getD_eq_getElem _ _ hmlt]; exact List.getElem_mem hmlt)
      obtain ⟨-, hjab, hjble, hjeq⟩ := hsj
      obtain ⟨-, hmab, hmble, hmeq⟩ := hsm
      rw [hjeq, mem_mkSegment_periods pts _ _ hjble] at hpj
      rw [hmeq, mem_mkSegment_periods pts _ _ hmble] at hpmain
      obtain ⟨i1, h1a, h1b, hp1⟩ := hpj
      obtain ⟨i2, h2a, h2b, hp2⟩ := hpmain
      have hpair := hspec.2
      rw [List.pairwise_iff_getElem] at hpair
      have lt1 : i1 < pts.length := lt_of_lt_of_le h1b hjble
      have lt2 : i2 < pts.length := lt_of_lt_of_le h2b hmble
      have h12 : i1 ≠ i2 := by
        rcases Nat.lt_or_ge j (mainSegIdx (levelShiftSegs t pts)) with hlt2 | hge
        · have hh := hpair j (mainSegIdx (levelShiftSegs t pts)) hj hmlt hlt2
          rw [← List.getD_eq_getElem _ default hj,
            ← List.getD_eq_getElem _ default hmlt] at hh
          omega
        · have hmj : mainSegIdx (levelShiftSegs t pts) < j := by omega
          have hh := hpair (mainSegIdx (levelShiftSegs t pts)) j hmlt hj hmj
          rw [← List.getD_eq_getElem _ default hmlt,
            ← List.getD_eq_getElem _ default hj] at hh
          omega
      have hb1 : i1 < (pts.map (fun q => q.time_period)).length := by simpa using lt1
      have hb2 : i2 < (pts.map (fun q => q.time_period)).length := by simpa using lt2
      have e1 : (pts.map (fun q => q.time_period)).getD i1 "" = p := by
        rw [List.getD_eq_getElem _ _ hb1, List.getElem_map]
        rw [List.getD_eq_getElem _ _ lt1] at hp1
        exact hp1
      have e2 : (pts.map (fun q => q.time_period)).getD i2 "" = p := by
        rw [List.getD_eq_getElem _ _ hb2, List.getElem_map]
        rw [List.getD_eq_getElem _ _ lt2] at hp2
        exact hp2
      have hgg := e1.trans e2.symm
      rw [List.getD_eq_getElem _ _ hb1, List.getD_eq_getElem _ _ hb2] at hgg
      exact h12 (hnd.getElem_inj_iff.mp hgg)

/-- Concrete 12-point series with an eight-quarter main level and a
two-quarter shifted level: used to witness C2. -/
def lsWitnessSeries : List DataPoint :=
  [⟨"2000-Q1", 100⟩, ⟨"2000-Q2", 100⟩, ⟨"2000-Q3", 100⟩, ⟨"2000-Q4", 100⟩,
   ⟨"2001-Q1", 100⟩, ⟨"2001-Q2", 100⟩, ⟨"2001-Q3", 100⟩, ⟨"2001-Q4", 100⟩,
   ⟨"2002-Q1", 1000⟩, ⟨"2002-Q2", 1000⟩, ⟨"2002-Q3", 100⟩, ⟨"2002-Q4", 100⟩]

/-- C2 witness: on the concrete series the main branch applies (12 points,
2 extreme changes) and the first period of the shifted segment is marked
for deletion. -/
theorem C2_witness : "2002-Q1" ∈ levelShiftPeriods 20 lsWitnessSeries := by
  have e_es : extremeIdxs 20 (lsWitnessSeries.map (fun q => q.value)) = [8, 10] := by
    norm_num [extremeIdxs, lsWitnessSeries, pct_change, List.range_succ,
      List.getD_cons_succ, List.getD_cons_zero, List.filter_append]
  have e_segs : levelShiftSegs 20 lsWitnessSeries =
      [⟨0, 8, 8, 100, ["2000-Q1", "2000-Q2", "2000-Q3", "2000-Q4",
          "2001-Q1", "2001-Q2", "2001-Q3", "2001-Q4"]⟩,
       ⟨8, 10, 2, 1000, ["2002-Q1", "2002-Q2"]⟩,
       ⟨10, 12, 2, 100, ["2002-Q3", "2002-Q4"]⟩] := by
    unfold levelShiftSegs buildSegments
    rw [e_es]
    norm_num [buildSegmentsAux, mkSegment, lsWitnessSeries]
  have e_main : mainSegIdx (levelShiftSegs 20 lsWitnessSeries) = 0 := by
    rw [e_segs]
    norm_num [mainSegIdx, maxSegLen, List.findIdx, List.findIdx.go]
  refine ((((C2_filter_level_shifts 20 lsWitnessSeries).2.2
    (by norm_num [lsWitnessSeries])
    (by rw [e_es]; norm_num)).2.1) "2002-Q1").mpr ?_
  refine ⟨1, ?_, ?_, ?_, ?_⟩
  · rw [e_segs]; norm_num
  · rw [e_main]; norm_num
  · rw [e_main, e_segs]
    norm_num [List.getD_cons_succ, List.getD_cons_zero]
  · rw [e_segs]
    simp [List.getD_cons_succ, List.getD_cons_zero]

/-! ## calculate_cumulative_return (scripts/calculate_cumulative_return.py) -/

/-- The inner loop of calculate_cumulative_return (lines 97-110) on the
points after the first: the running index is multiplied by
current_value / previous_value at each step. -/
def cumAux (cum prev : ℚ) : List ℚ → List ℚ
  | [] => []
  | v :: vs => (cum * (v / prev)) :: cumAux (cum * (v / prev)) v vs

/-- The indexed values calculate_cumulative_return computes for one
country's sorted source series (lines 90-110): the first observation is
indexed at 100 and each later one follows the recurrence. -/
def cumulativeSeries : List ℚ → List ℚ
  | [] => []
  | v :: vs => 100 :: cumAux 100 v vs

/-- Helper: the output has the length of the input. -/
theorem cumAux_length (vs : List ℚ) :
    ∀ (c p : ℚ), (cumAux c p vs).length = vs.length := by
  induction vs with
  | nil => intro c p; rfl
  | cons v vs ih => intro c p; simp [cumAux, ih]

/-- Helper: the recurrence satisfied by the running index. -/
theorem cumAux_recurrence (vs : List ℚ) :
    ∀ (c p : ℚ) (i : Nat), i + 1 < vs.length →
    (cumAux c p vs).getD (i + 1) 0 =
      (cumAux c p vs).getD i 0 * (vs.getD (i + 1) 0 / vs.getD i 0) := by
  induction vs with
  | nil => intro c p i h; simp at h
  | cons v vs ih =>
    intro c p i h
    cases i with
    | zero =>
      cases vs with
      | nil => simp at h
      | cons w ws => simp [cumAux, List.getD_cons_succ, List.getD_cons_zero]
    | succ k =>
      simp only [cumAux, List.getD_cons_succ]
      exact ih (c * (v / p)) v k (by simpa using h)

/-- Helper: the closed form of the running index, by telescoping, valid
when the values strictly before position i are nonzero. -/
theorem cumAux_closed (vs : List ℚ) :
    ∀ (c p : ℚ) (i : Nat), i < vs.length →
    (∀ j, j < i → vs.getD j 0 ≠ 0) →
    (cumAux c p vs).getD i 0 = c * (vs.getD i 0 / p) := by
  induction vs with
  | nil => intro c p i h _; simp at h
  | cons v vs ih =>
    intro c p i h hnz
    cases i with
    | zero => simp [cumAux]
    | succ k =>
      have hv : v ≠ 0 := by simpa using hnz 0 (Nat.succ_pos k)
      simp only [cumAux, List.getD_cons_succ]
      rw [ih (c * (v / p)) v k (by simpa using h)
        (fun j hj => by simpa using hnz (j + 1) (by omega))]
      have hstep : v / p * (vs.getD k 0 / v) = vs.getD k 0 / p := by
        rw [div_mul_div_comm, mul_comm p v, mul_div_mul_left _ _ hv]
      rw [mul_assoc, hstep]

/-- C3: for a non-empty sorted source series, calculate_cumulative_return
assigns the first observation the index 100 and every later observation i
the index (previous index) * (value_i / value_(i-1)); consequently, for a
later observation i whose preceding values are all nonzero, the index at
position i equals 100 * value_i / value_0, and the same closed form also
holds at position 0 whenever value_0 is nonzero. -/
theorem C3_calculate_cumulative_return (vals : List ℚ) :
    (vals ≠ [] → (cumulativeSeries vals).getD 0 0 = 100) ∧
    (∀ i, i + 1 < vals.length →
      (cumulativeSeries vals).getD (i + 1) 0 =
        (cumulativeSeries vals).getD i 0 *
          (vals.getD (i + 1) 0 / vals.getD i 0)) ∧
    (∀ i, 1 ≤ i → i < vals.length → (∀ j, j < i → vals.getD j 0 ≠ 0) →
      (cumulativeSeries vals).getD i 0 = 100 * vals.getD i 0 / vals.getD 0 0) ∧
    (vals.getD 0 0 ≠ 0 →
      (cumulativeSeries vals).getD 0 0 = 100 * vals.getD 0 0 / vals.getD 0 0) := by
  refine ⟨?_, ?_, ?_, ?_⟩
  · intro h
    cases vals with
    | nil => exact absurd rfl h
    | cons v vs => rfl
  · intro i hi
    cases vals with
    | nil => simp at hi
    | cons v vs =>
      cases i with
      | zero =>
        cases vs with
        | nil => simp at hi
        | cons w ws =>
          simp [cumulativeSeries, cumAux, List.getD_cons_succ, List.getD_cons_zero]
      | succ k =>
        simp only [cumulativeSeries, List.getD_cons_succ]
        exact cumAux_recurrence vs 100 v k (by simpa using hi)
  · intro i h1 hi hnz
    cases vals with
    | nil => simp at hi
    | cons v vs =>
      obtain ⟨k, rfl⟩ : ∃ k, i = k + 1 := ⟨i - 1, by omega⟩
      simp only [cumulativeSeries, List.getD_cons_succ]
      rw [cumAux_closed vs 100 v k (by simpa using hi)
        (fun j hj => by simpa using hnz (j + 1) (by omega))]
      rw [List.getD_cons_zero, mul_div_assoc]
  · intro h0
    cases vals with
    | nil => simp at h0
    | cons v vs =>
      have hv : v ≠ 0 := by simpa using h0
      simp only [cumulativeSeries, List.getD_cons_zero]
      rw [mul_div_assoc, div_self hv, mul_one]

/-- C3 witness: on the concrete series (100, 110, 121) the index at
position 2 is 100 * 121 / 100 = 121. -/
theorem C3_witness :
    (cumulativeSeries [100, 110, 121]).getD 2 0 = 100 * (121 : ℚ) / 100 := by
  have h := (C3_calculate_cumulative_return [100, 110, 121]).2.2.1 2
    (by norm_num) (by norm_num)
    (by
      intro j hj
      interval_cases j <;> norm_num [List.getD_cons_succ, List.getD_cons_zero])
  simpa [List.getD_cons_succ, List.getD_cons_zero] using h

/-! ## Ingestion upsert (scripts/oecd/fetcher.py, _upsert_to_database) -/

/-- The field update an upsert applies to a conflicting row: value, unit,
source and last_updated are taken from the incoming row, the key fields
stay. -/
def updateRow (q r : Row) : Row :=
  { q with
      value := r.value
      unit := r.unit
      source := r.source
      last_updated := r.last_updated }

/-- SQLite INSERT ... ON CONFLICT(country, time_period, metric_name) DO
UPDATE SET value, unit, source, last_updated (fetcher.py lines 189-199;
the same statement appears in calculate_cumulative_return.py lines
136-146): when a row with the incoming key exists it is updated in place,
otherwise the incoming row is appended. -/
def upsert (db : List Row) (r : Row) : List Row :=
  if db.any (fun q => decide (q.key = r.key)) then
    db.map (fun q => if q.key = r.key then updateRow q r else q)
  else db ++ [r]

/-- C4: the upsert is last-write-wins over the (country, time_period,
metric_name) primary key: it preserves key uniqueness; on a fresh key it
appends exactly one row; on an existing key it keeps the table length,
replaces exactly the matching row's value, unit, source and last_updated
with the incoming ones, and leaves every row with a different key
unchanged at its position. -/
theorem C4_upsert (db : List Row) (r : Row)
    (hnd : (db.map Row.key).Nodup) :
    ((upsert db r).map Row.key).Nodup ∧
    ((∀ q ∈ db, q.key ≠ r.key) → upsert db r = db ++ [r]) ∧
    ((∃ q ∈ db, q.key = r.key) →
      (upsert db r).length = db.length ∧
      ∀ i, i < db.length →
        ((db.getD i default).key ≠ r.key →
          (upsert db r).getD i default = db.getD i default) ∧
        ((db.getD i default).key = r.key →
          (upsert db r).getD i default = updateRow (db.getD i default) r)) := by
  have hcond : (db.any (fun q => decide (q.key = r.key)) = true) ↔
      ∃ q ∈ db, q.key = r.key := by
    simp [List.any_eq_true]
  refine ⟨?_, ?_, ?_⟩
  · by_cases hex : ∃ q ∈ db, q.key = r.key
    · unfold upsert
      rw [if_pos (hcond.mpr hex)]
      have hmap : (db.map (fun q => if q.key = r.key then updateRow q r else q)).map
          Row.key = db.map Row.key := by
        rw [List.map_map]
        apply List.map_congr_left
        intro q hq
        show (if q.key = r.key then updateRow q r else q).key = q.key
        by_cases h : q.key = r.key
        · rw [if_pos h]
          simp [Row.key, updateRow]
        · rw [if_neg h]
      rw [hmap]
      exact hnd
    · unfold upsert
      rw [if_neg (fun hc => hex (hcond.mp hc))]
      rw [List.map_append, List.nodup_append]
      refine ⟨hnd, by simp, ?_⟩
      intro a ha hb
      simp only [List.map_cons, List.map_nil, List.mem_singleton] at hb
      subst hb
      obtain ⟨q, hq, hkey⟩ := List.mem_map.mp ha
      exact hex ⟨q, hq, hkey⟩
  · intro hno
    unfold upsert
    rw [if_neg ?hcf]
    case hcf =>
      intro hc
      obtain ⟨q, hq, hk⟩ := hcond.mp hc
      exact hno q hq hk
  · intro hex
    unfold upsert
    rw [if_pos (hcond.mpr hex)]
    refine ⟨by simp, ?_⟩
    intro i hi
    have hb : i < (db.map (fun q =>
        if q.key = r.key then updateRow q r else q)).length := by simpa using hi
    constructor
    · intro hne
      rw [List.getD_eq_getElem _ _ hi] at hne
      rw [List.getD_eq_getElem _ _ hb, List.getElem_map,
        List.getD_eq_getElem _ _ hi, if_neg hne]
    · intro heq
      rw [List.getD_eq_getElem _ _ hi] at heq
      rw [List.getD_eq_getElem _ _ hb, List.getElem_map,
        List.getD_eq_getElem _ _ hi, if_pos heq]

/-- C4 witness: upserting a point carrying the key of the only stored row
replaces that row's value and metadata in place. -/
theorem C4_witness :
    (upsert [⟨"USA", "2020-Q1", "real_gdp", 5, "USD", "OECD", "t1"⟩]
        ⟨"USA", "2020-Q1", "real_gdp", 7, "USD2", "OECD2", "t2"⟩).getD 0 default =
      ⟨"USA", "2020-Q1", "real_gdp", 7, "USD2", "OECD2", "t2"⟩ := by
  have h := ((C4_upsert [⟨"USA", "2020-Q1", "real_gdp", 5, "USD", "OECD", "t1"⟩]
      ⟨"USA", "2020-Q1", "real_gdp", 7, "USD2", "OECD2", "t2"⟩ (by simp)).2.2
      ⟨⟨"USA", "2020-Q1", "real_gdp", 5, "USD", "OECD", "t1"⟩, by simp, rfl⟩).2 0
      (by simp)
  simpa [List.getD_cons_zero, Row.key, updateRow] using h.2 rfl

/-! ## fix_quarter_mislabeling (scripts/fix_quarter_mislabeling.py) -/

/-- Whether a (country, metric) pair already has a 2005-Q4 row in the
current table (fix_quarter_mislabeling.py lines 39-44). -/
def has2005Q4 (db : List Row) (c m : String) : Bool :=
  db.any (fun q => decide (q.country = c ∧ q.metric_name = m ∧
    q.time_period = "2005-Q4"))

/-- One loop iteration of fix_quarter_mislabeling (lines 37-62) for the
snapshot record with (country, metric) pair k: if a 2005-Q4 row exists in
the current table, DELETE the (country, metric, 2025-Q3) rows, otherwise
UPDATE them to time_period 2005-Q4. -/
def fixStep (db : List Row) (k : String × String) : List Row :=
  if has2005Q4 db k.1 k.2 then
    db.filter (fun q => decide (¬ (q.country = k.1 ∧ q.metric_name = k.2 ∧
      q.time_period = "2025-Q3")))
  else
    db.map (fun q =>
      if q.country = k.1 ∧ q.metric_name = k.2 ∧ q.time_period = "2025-Q3"
      then { q with time_period := "2005-Q4" } else q)

/-- fix_quarter_mislabeling (lines 16-64): snapshot the rows whose
time_period is 2025-Q3, then process each snapshot record in order on the
live table. -/
def fix_quarter_mislabeling (db : List Row) : List Row :=
  ((db.filter (fun q => decide (q.time_period = "2025-Q3"))).map
    (fun q => (q.country, q.metric_name))).foldl fixStep db

/-- Modelled from the spec sentence for C5 (the per-record restatement
of the claim, used as the refinement target): a record with time_period
2025-Q3 is deleted when a 2005-Q4 record for the same country and metric
already exists in the original table and otherwise relabeled to 2005-Q4
with its value unchanged; records with any other time_period are kept
unchanged. -/
def fixSpecFate (db : List Row) (q : Row) : Option Row :=
  if q.time_period = "2025-Q3" then
    if has2005Q4 db q.country q.metric_name then none
    else some { q with time_period := "2005-Q4" }
  else some q

/-- Helper: a filter written as a filterMap. -/
theorem filter_eq_filterMap (p : Row → Bool) :
    ∀ l : List Row,
      l.filter p = l.filterMap (fun q => if p q then some q else none) := by
  intro l
  induction l with
  | nil => rfl
  | cons x l ih =>
    by_cases h : p x <;>
      simp [List.filter_cons, List.filterMap_cons, h, ih]

/-- Helper: a map written as a filterMap. -/
theorem map_eq_filterMap (g : Row → Row) :
    ∀ l : List Row, l.map g = l.filterMap (fun q => some (g q)) := by
  intro l
  induction l with
  | nil => rfl
  | cons x l ih => simp [List.filterMap_cons, ih]

/-- Helper: a step for one snapshot key does not change any other pair's
2005-Q4 rows. -/
theorem has2005Q4_fixStep (db : List Row) (k : String × String) (c m : String)
    (h : (c, m) ≠ k) :
    has2005Q4 (fixStep db k) c m = has2005Q4 db c m := by
  unfold fixStep
  split_ifs with hk
  · rw [Bool.eq_iff_iff]
    simp only [has2005Q4, List.any_eq_true, List.mem_filter, decide_eq_true_eq]
    constructor
    · rintro ⟨q, ⟨hq, -⟩, hcm⟩
      exact ⟨q, hq, hcm⟩
    · rintro ⟨q, hq, hcm⟩
      refine ⟨q, ⟨hq, ?_⟩, hcm⟩
      simp [hcm.2.2]
  · rw [Bool.eq_iff_iff]
    simp only [has2005Q4, List.any_eq_true, List.mem_map, decide_eq_true_eq]
    constructor
    · rintro ⟨q2, ⟨q, hq, rfl⟩, hcm⟩
      by_cases hc : q.country = k.1 ∧ q.metric_name = k.2 ∧
          q.time_period = "2025-Q3"
      · rw [if_pos hc] at hcm
        exact absurd (by rw [← hcm.1, ← hcm.2.1]; exact Prod.ext hc.1 hc.2.1) h
      · rw [if_neg hc] at hcm
        exact ⟨q, hq, hcm⟩
    · rintro ⟨q, hq, hcm⟩
      refine ⟨_, ⟨q, hq, rfl⟩, ?_⟩
      rw [if_neg (by simp [hcm.2.2])]
      exact hcm

/-- Helper: one loop step, written as a filterMap deciding each row's
fate from the pre-step table. -/
theorem fixStep_eq_filterMap (db : List Row) (k : String × String) :
    fixStep db k = db.filterMap (fun q =>
      if (q.country, q.metric_name) = k ∧ q.time_period = "2025-Q3" then
        (if has2005Q4 db k.1 k.2 then none
         else some { q with time_period := "2005-Q4" })
      else some q) := by
  unfold fixStep
  split_ifs with hk
  · rw [filter_eq_filterMap]
    apply List.filterMap_congr
    intro q _
    by_cases hc : q.country = k.1 ∧ q.metric_name = k.2 ∧
        q.time_period = "2025-Q3"
    · simp [hc.1, hc.2.1, hc.2.2, hk]
    · have hck2 : ¬((q.country, q.metric_name) = k ∧ q.time_period = "2025-Q3") :=
        fun h2 => hc ⟨congrArg Prod.fst h2.1, congrArg Prod.snd h2.1, h2.2⟩

      simp [hc, hck2]
  · rw [map_eq_filterMap]
    apply List.filterMap_congr
    intro q _
    by_cases hc : q.country = k.1 ∧ q.metric_name = k.2 ∧
        q.time_period = "2025-Q3"
    · simp [hc.1, hc.2.1, hc.2.2, hk]
    · have hck2 : ¬((q.country, q.metric_name) = k ∧ q.time_period = "2025-Q3") :=
        fun h2 => hc ⟨congrArg Prod.fst h2.1, congrArg Prod.snd h2.1, h2.2⟩
      simp [hc, hck2]

/-- Helper: processing a duplicate-free snapshot of keys whose 2005-Q4
status in the starting table is captured by f yields, row by row, the
fate determined by f. -/
theorem foldl_fixStep_eq (f : String × String → Bool) :
    ∀ (ks : List (String × String)), ks.Nodup →
      ∀ (db : List Row), (∀ k ∈ ks, has2005Q4 db k.1 k.2 = f k) →
      List.foldl fixStep db ks = db.filterMap (fun q =>
        if (q.country, q.metric_name) ∈ ks ∧ q.time_period = "2025-Q3" then
          (if f (q.country, q.metric_name) then none
           else some { q with time_period := "2005-Q4" })
        else some q) := by
  intro ks
  induction ks with
  | nil =>
    intro _ db _
    simp
  | cons k ks ih =>
    intro hnd db hf
    rw [List.foldl_cons]
    have hknotmem : k ∉ ks := (List.nodup_cons.mp hnd).1
    have hf2 : ∀ k2 ∈ ks, has2005Q4 (fixStep db k) k2.1 k2.2 = f k2 := by
      intro k2 hk2
      rw [has2005Q4_fixStep db k k2.1 k2.2 ?hne]
      · exact hf k2 (List.mem_cons_of_mem _ hk2)
      case hne =>
        intro he
        have he2 : k2 = k := by
          rw [← he]
        exact hknotmem (he2 ▸ hk2)
    rw [ih (List.nodup_cons.mp hnd).2 (fixStep db k) hf2,
      fixStep_eq_filterMap db k, List.filterMap_filterMap]
    apply List.filterMap_congr
    intro q hq
    have hfk := hf k (List.mem_cons_self k ks)
    by_cases hc : (q.country, q.metric_name) = k ∧ q.time_period = "2025-Q3"
    · have hm1 : (q.country, q.metric_name) ∈ k :: ks ∧ q.time_period = "2025-Q3" :=
        ⟨by rw [hc.1]; exact List.mem_cons_self k ks, hc.2⟩
      rw [if_pos hc, if_pos hm1, hfk, hc.1]
      by_cases hfval : f k
      · simp [hfval]
      · simp [hfval]
    · rw [if_neg hc]
      simp only [Option.some_bind]
      by_cases htp : q.time_period = "2025-Q3"
      · have hpk : (q.country, q.metric_name) ≠ k := fun he => hc ⟨he, htp⟩
        by_cases hmem2 : (q.country, q.metric_name) ∈ ks
        · have ha : (q.country, q.metric_name) ∈ ks ∧
              q.time_period = "2025-Q3" := ⟨hmem2, htp⟩
          have hb2 : (q.country, q.metric_name) ∈ k :: ks ∧
              q.time_period = "2025-Q3" := ⟨List.mem_cons_of_mem _ hmem2, htp⟩
          rw [if_pos ha, if_pos hb2]
        · have ha : ¬((q.country, q.metric_name) ∈ ks ∧
              q.time_period = "2025-Q3") := fun h2 => hmem2 h2.1
          have hb2 : ¬((q.country, q.metric_name) ∈ k :: ks ∧
              q.time_period = "2025-Q3") := by
            intro h2
            rcases List.mem_cons.mp h2.1 with he | hm
            · exact hpk he
            · exact hmem2 hm
          rw [if_neg ha, if_neg hb2]
      · have ha : ¬((q.country, q.metric_name) ∈ ks ∧
            q.time_period = "2025-Q3") := fun h2 => htp h2.2
        have hb2 : ¬((q.country, q.metric_name) ∈ k :: ks ∧
            q.time_period = "2025-Q3") := fun h2 => htp h2.2
        rw [if_neg ha, if_neg hb2]

/-- Helper: the snapshot of (country, metric) pairs of the 2025-Q3 rows
is duplicate-free when the table keys are. -/
theorem snapshotKeys_nodup (db : List Row) (hnd : (db.map Row.key).Nodup) :
    ((db.filter (fun q => decide (q.time_period = "2025-Q3"))).map
      (fun q => (q.country, q.metric_name))).Nodup := by
  have hdb : db.Nodup := List.Nodup.of_map _ hnd
  have hfil : (db.filter (fun q => decide (q.time_period = "2025-Q3"))).Nodup :=
    hdb.filter _
  refine List.Nodup.map_on ?_ hfil
  intro x hx y hy hxy
  have hxd := List.mem_filter.mp hx
  have hyd := List.mem_filter.mp hy
  have hxtp : x.time_period = "2025-Q3" := by simpa using hxd.2
  have hytp : y.time_period = "2025-Q3" := by simpa using hyd.2
  refine List.inj_on_of_nodup_map hnd hxd.1 hyd.1 ?_
  unfold Row.key
  rw [hxtp, hytp, Prod.mk.injEq, Prod.mk.injEq]
  exact ⟨congrArg Prod.fst hxy, rfl, congrArg Prod.snd hxy⟩

/-- C5: under the primary-key invariant, fix_quarter_mislabeling realises
the claim's per-record fate: a 2025-Q3 record is deleted when a 2005-Q4
record for the same country and metric already exists, otherwise it is
relabeled to 2005-Q4 with its value unchanged, records with any other
time_period are untouched, and afterwards no record has time_period
2025-Q3. -/
theorem C5_fix_quarter_mislabeling (db : List Row)
    (hnd : (db.map Row.key).Nodup) :
    fix_quarter_mislabeling db = db.filterMap (fixSpecFate db) ∧
    ∀ q ∈ fix_quarter_mislabeling db, q.time_period ≠ "2025-Q3" := by
  have hmain : fix_quarter_mislabeling db = db.filterMap (fixSpecFate db) := by
    unfold fix_quarter_mislabeling
    rw [foldl_fixStep_eq (fun k => has2005Q4 db k.1 k.2) _
      (snapshotKeys_nodup db hnd) db (fun k _ => rfl)]
    apply List.filterMap_congr
    intro q hq
    unfold fixSpecFate
    by_cases htp : q.time_period = "2025-Q3"
    · have hmem : (q.country, q.metric_name) ∈
          (db.filter (fun q2 => decide (q2.time_period = "2025-Q3"))).map
            (fun q2 => (q2.country, q2.metric_name)) :=
        List.mem_map.mpr ⟨q, List.mem_filter.mpr ⟨hq, by simpa using htp⟩, rfl⟩
      rw [if_pos ⟨hmem, htp⟩, if_pos htp]
    · rw [if_neg (fun h2 => htp h2.2), if_neg htp]
  refine ⟨hmain, ?_⟩
  intro q hq
  rw [hmain] at hq
  obtain ⟨q2, hq2, hfate⟩ := List.mem_filterMap.mp hq
  unfold fixSpecFate at hfate
  by_cases htp : q2.time_period = "2025-Q3"
  · rw [if_pos htp] at hfate
    by_cases hh : has2005Q4 db q2.country q2.metric_name
    · rw [if_pos hh] at hfate
      cases hfate
    · rw [if_neg hh] at hfate
      rw [← Option.some.inj hfate]
      simp
  · rw [if_neg htp] at hfate
    rw [← Option.some.inj hfate]
    exact htp

/-- C5 witness: on a concrete three-row table, the 2025-Q3 record of
country A (no 2005-Q4 twin) is relabeled, the 2025-Q3 record of country B
(whose 2005-Q4 twin exists) is deleted, and the other record is kept. -/
theorem C5_witness :
    fix_quarter_mislabeling
      [⟨"A", "2025-Q3", "m", 1, "u", "s", "t"⟩,
       ⟨"B", "2025-Q3", "m", 2, "u", "s", "t"⟩,
       ⟨"B", "2005-Q4", "m", 3, "u", "s", "t"⟩] =
      [⟨"A", "2005-Q4", "m", 1, "u", "s", "t"⟩,
       ⟨"B", "2005-Q4", "m", 3, "u", "s", "t"⟩] := by
  rw [(C5_fix_quarter_mislabeling _ (by simp [Row.key])).1]
  simp [fixSpecFate, has2005Q4, List.filterMap_cons]

/-! ## calculate_gdp_level (scripts/calculate_gdp_level.py) -/

/-- The gdp_level row written for a matched (gdp_per_capita, population)
pair (calculate_gdp_level.py lines 37-54): the product value at the
gdp row's country and quarter, with the fixed unit, source and the run
timestamp. -/
def mkGdpLevelRow (ts : String) (g p : Row) : Row :=
  ⟨g.country, g.time_period, "gdp_level", g.value * p.value, "USD",
   "Calculated from OECD data", ts⟩

/-- The join of calculate_gdp_level.py lines 16-30: every pair of a
gdp_per_capita row and a population row with the same country whose
annual period equals the first four characters of the quarter.  (The
IS NOT NULL conditions are vacuous here: the schema declares value NOT
NULL and the model makes it total.) -/
def gdpLevelPairs (db : List Row) : List (Row × Row) :=
  db.flatMap (fun g => (db.filter (fun p =>
    decide (g.metric_name = "gdp_per_capita" ∧ p.metric_name = "population" ∧
      g.country = p.country ∧ g.time_period.take 4 = p.time_period))).map
    (fun p => (g, p)))

/-- calculate_gdp_level (lines 16-57): compute the products of all
matched pairs, DELETE every existing gdp_level row, then INSERT the
computed rows. -/
def calculate_gdp_level (ts : String) (db : List Row) : List Row :=
  (db.filter (fun r => decide (¬ r.metric_name = "gdp_level"))) ++
    (gdpLevelPairs db).map (fun gp => mkGdpLevelRow ts gp.1 gp.2)

/-- C6: after calculate_gdp_level, a row is in the table exactly when it
is an original row of another metric, or it is the computed gdp_level row
of a pair of a gdp_per_capita observation and a population observation of
the same country whose annual period is the first four characters of the
quarter, with value the product of the two; in particular the gdp_level
series consists exactly of the computed rows. -/
theorem C6_calculate_gdp_level (ts : String) (db : List Row) (r : Row) :
    r ∈ calculate_gdp_level ts db ↔
      (r.metric_name ≠ "gdp_level" ∧ r ∈ db) ∨
      (∃ g ∈ db, ∃ p ∈ db, g.metric_name = "gdp_per_capita" ∧
        p.metric_name = "population" ∧ g.country = p.country ∧
        g.time_period.take 4 = p.time_period ∧ r = mkGdpLevelRow ts g p) := by
  unfold calculate_gdp_level gdpLevelPairs
  simp only [List.mem_append, List.mem_filter, List.mem_flatMap, List.mem_map,
    decide_eq_true_eq]
  constructor
  · rintro (⟨hr, hm⟩ | ⟨gp, ⟨g, hg, p, ⟨hp, hconds⟩, rfl⟩, rfl⟩)
    · exact Or.inl ⟨hm, hr⟩
    · exact Or.inr ⟨g, hg, p, hp, hconds.1, hconds.2.1, hconds.2.2.1,
        hconds.2.2.2, rfl⟩
  · rintro (⟨hm, hr⟩ | ⟨g, hg, p, hp, h1, h2, h3, h4, rfl⟩)
    · exact Or.inl ⟨hr, hm⟩
    · exact Or.inr ⟨(g, p), ⟨g, hg, p, ⟨hp, h1, h2, h3, h4⟩, rfl⟩, rfl⟩

/-! ## Query API (app.py) -/

/-- A SQL statement as executed against economic_data.  SELECTs carry
their text and bound parameters and read only; the write forms carry the
semantics a DELETE / INSERT / UPDATE would have on the table. -/
inductive Stmt where
  | select (sql : String) (params : List String)
  | deleteRows (pred : Row → Bool)
  | insertRow (r : Row)
  | updateRows (pred : Row → Bool) (f : Row → Row)

/-- The effect of one statement on the table. -/
def applyStmt (db : List Row) : Stmt → List Row
  | Stmt.select _ _ => db
  | Stmt.deleteRows p => db.filter (fun r => ! p r)
  | Stmt.insertRow r => db ++ [r]
  | Stmt.updateRows p f => db.map (fun r => if p r then f r else r)

/-- The table after executing a list of statements in order. -/
def runStmts (db : List Row) (l : List Stmt) : List Row :=
  l.foldl applyStmt db

/-- GET /api/metrics (app.py lines 29-66): one SELECT. -/
def get_metrics_stmts : List Stmt :=
  [Stmt.select ("SELECT DISTINCT metric_name, unit, source, COUNT(*), " ++
    "MIN(time_period), MAX(time_period) FROM economic_data " ++
    "GROUP BY metric_name, unit, source ORDER BY metric_name") []]

/-- GET /api/countries (app.py lines 68-104): one SELECT, filtered by
metric when the parameter is present. -/
def get_countries_stmts (metric : Option String) : List Stmt :=
  match metric with
  | some m =>
    [Stmt.select ("SELECT DISTINCT country, COUNT(*) FROM economic_data " ++
      "WHERE metric_name = ? GROUP BY country ORDER BY country") [m]]
  | none =>
    [Stmt.select ("SELECT DISTINCT country, COUNT(*) FROM economic_data " ++
      "GROUP BY country ORDER BY country") []]

/-- The dynamically built query of GET /api/data (app.py lines 129-152):
the base SELECT plus optional country, start and end clauses.  A missing
metric parameter returns 400 before anything executes. -/
def get_data_stmts (metric : Option String) (countries : List String)
    (start_date end_date : Option String) : List Stmt :=
  match metric with
  | none => []
  | some m =>
    let q0 := "SELECT country, time_period, value, unit FROM economic_data " ++
      "WHERE metric_name = ?"
    let p0 := [m]
    let useCountries := decide (countries ≠ [] ∧ countries.headD "" ≠ "")
    let q1 := if useCountries then
        q0 ++ " AND country IN (" ++
          String.intercalate "," (countries.map (fun _ => "?")) ++ ")"
      else q0
    let p1 := if useCountries then p0 ++ countries else p0
    let q2 := match start_date with
      | some _ => q1 ++ " AND time_period >= ?"
      | none => q1
    let p2 := match start_date with
      | some s => p1 ++ [s]
      | none => p1
    let q3 := match end_date with
      | some _ => q2 ++ " AND time_period <= ?"
      | none => q2
    let p3 := match end_date with
      | some e => p2 ++ [e]
      | none => p2
    [Stmt.select (q3 ++ " ORDER BY country, time_period") p3]

/-- GET /api/correlate (app.py lines 185-232): one SELECT joining the two
metrics, with an optional country clause; missing metrics return 400
before anything executes. -/
def correlate_stmts (metric1 metric2 : Option String)
    (countries : List String) : List Stmt :=
  match metric1, metric2 with
  | some m1, some m2 =>
    let q0 := "SELECT m1.country, m1.time_period, m1.value, m1.unit, " ++
      "m2.value, m2.unit FROM economic_data m1 INNER JOIN economic_data m2 " ++
      "ON m1.country = m2.country AND m1.time_period = m2.time_period " ++
      "WHERE m1.metric_name = ? AND m2.metric_name = ?"
    let useCountries := decide (countries ≠ [] ∧ countries.headD "" ≠ "")
    let q1 := if useCountries then
        q0 ++ " AND m1.country IN (" ++
          String.intercalate "," (countries.map (fun _ => "?")) ++ ")"
      else q0
    let p1 := if useCountries then [m1, m2] ++ countries else [m1, m2]
    [Stmt.select (q1 ++ " ORDER BY m1.country, m1.time_period") p1]
  | _, _ => []

/-- GET /api/stats (app.py lines 274-307): five SELECTs. -/
def get_stats_stmts : List Stmt :=
  [Stmt.select "SELECT COUNT(*) FROM economic_data" [],
   Stmt.select "SELECT COUNT(DISTINCT metric_name) FROM economic_data" [],
   Stmt.select "SELECT COUNT(DISTINCT country) FROM economic_data" [],
   Stmt.select "SELECT COUNT(DISTINCT time_period) FROM economic_data" [],
   Stmt.select
     "SELECT MIN(time_period), MAX(time_period) FROM economic_data" []]

/-- C7: every query-API endpoint is read-only: with any parameters, every
statement it executes is a SELECT and the table is left unchanged. -/
theorem C7_api_read_only (db : List Row)
    (metric m1 m2 start_date end_date : Option String)
    (countries : List String) :
    runStmts db get_metrics_stmts = db ∧
    runStmts db (get_countries_stmts metric) = db ∧
    runStmts db (get_data_stmts metric countries start_date end_date) = db ∧
    runStmts db (correlate_stmts m1 m2 countries) = db ∧
    runStmts db get_stats_stmts = db := by
  refine ⟨rfl, ?_, ?_, ?_, rfl⟩
  · cases metric <;> rfl
  · cases metric <;> cases start_date <;> cases end_date <;> rfl
  · cases m1 <;> cases m2 <;> rfl

/-! ## OECDDataFilter.filter_by_status (scripts/oecd/filters.py) -/

/-- A parsed OECD data point as filter_by_status consumes it. -/
structure OECDPoint where
  country : String
  time_period : String
  value : ℚ
deriving DecidableEq

/-- A raw CSV row with the columns filter_by_status reads. -/
structure CSVRow where
  reference_area : String
  time_period : String
  obs_status : String
deriving DecidableEq

/-- Python str.strip(): drop leading and trailing whitespace.  (Defined on
the character list so that it evaluates; String.trim is the same
operation.) -/
def pyStrip (s : String) : String :=
  ⟨((s.data.dropWhile Char.isWhitespace).reverse.dropWhile
    Char.isWhitespace).reverse⟩

/-- The (country, time_period) → status lookup dict built from the CSV
rows (filters.py lines 54-60): rows with an empty stripped country or
period are skipped, later rows overwrite earlier ones, and a missing key
yields the empty string (lookup .get default). -/
def statusLookup (rows : List CSVRow) (c t : String) : String :=
  rows.foldl (fun acc row =>
    if pyStrip row.reference_area ≠ "" ∧ pyStrip row.time_period ≠ "" ∧
        pyStrip row.reference_area = c ∧ pyStrip row.time_period = t
    then pyStrip row.obs_status else acc) ""

/-- filter_by_status (filters.py lines 32-91), modelling the returned
filtered list (the companion statistics dict only reports counts): with
allowed_statuses None, or with no CSV rows, the points are returned
unchanged; otherwise exactly the points whose looked-up status is a
member of the allowed list are kept, in input order. -/
def filter_by_status (data_points : List OECDPoint)
    (allowed_statuses : Option (List String)) (csv_rows : List CSVRow) :
    List OECDPoint :=
  match allowed_statuses with
  | none => data_points
  | some allowed =>
    if csv_rows.isEmpty then data_points
    else data_points.filter (fun p =>
      allowed.contains (statusLookup csv_rows p.country p.time_period))

/-- C8: filter_by_status returns the input unchanged when allowed_statuses
is None or there are no CSV rows; otherwise it keeps, in input order,
exactly the points whose observation status — looked up by (country,
time_period) and defaulting to the empty string when no CSV row matches —
is a member of the allowed list. -/
theorem C8_filter_by_status (data_points : List OECDPoint)
    (allowed : List String) (csv_rows : List CSVRow) :
    filter_by_status data_points none csv_rows = data_points ∧
    filter_by_status data_points (some allowed) [] = data_points ∧
    (csv_rows ≠ [] →
      filter_by_status data_points (some allowed) csv_rows =
        data_points.filter (fun p =>
          allowed.contains (statusLookup csv_rows p.country p.time_period))) ∧
    (∀ c t, (∀ row ∈ csv_rows, ¬(pyStrip row.reference_area ≠ "" ∧
        pyStrip row.time_period ≠ "" ∧ pyStrip row.reference_area = c ∧
        pyStrip row.time_period = t)) →
      statusLookup csv_rows c t = "") := by
  refine ⟨rfl, rfl, ?_, ?_⟩
  · intro hne
    have hie : csv_rows.isEmpty = false := by simpa using hne
    simp [filter_by_status, hie]
  · intro c t
    induction csv_rows with
    | nil => intro _; rfl
    | cons row rows ih =>
      intro hno
      unfold statusLookup
      rw [List.foldl_cons,
        if_neg (hno row (List.mem_cons_self row rows))]
      exact ih (fun r2 hr2 => hno r2 (List.mem_cons_of_mem _ hr2))

/-- C8 witness: with allowed statuses (A, E), the point whose CSV row
(with whitespace to be stripped) carries status A is kept and the point
with no CSV row (status defaults to the empty string) is dropped; a key
no row matches looks up to the empty string. -/
theorem C8_witness :
    filter_by_status [⟨"A", "2020-Q1", 1⟩, ⟨"B", "2020-Q1", 2⟩]
        (some ["A", "E"]) [⟨" A ", "2020-Q1", " A "⟩] =
      [⟨"A", "2020-Q1", 1⟩] ∧
    statusLookup [⟨" A ", "2020-Q1", " A "⟩] "Z" "2020-Q1" = "" := by
  constructor
  · rw [(C8_filter_by_status [⟨"A", "2020-Q1", 1⟩, ⟨"B", "2020-Q1", 2⟩]
      ["A", "E"] [⟨" A ", "2020-Q1", " A "⟩]).2.2.1 (by simp)]
    decide
  · exact (C8_filter_by_status [] ["A", "E"] [⟨" A ", "2020-Q1", " A "⟩]).2.2.2
      "Z" "2020-Q1" (by decide)

/-! ## filter_bad_data (scripts/filter_bad_data.py) -/

/-- The while loop of filter_bad_data (lines 91-146), returning the
marked indices: at index i (predecessor at i-1), when the change from the
predecessor is extreme, either the change to the successor is also
extreme and of opposite sign (the V pattern, requiring a successor), or,
with both an index i-2 and a successor present, the current value
deviates more than 30% from the average of those two neighbours while the
predecessor deviates less than 15%; a marked index advances the loop by
2, anything else by 1. -/
def badDataIdxs (t : ℚ) (pts : List DataPoint) (i : Nat) : List Nat :=
  if h : i < pts.length then
    if 0 < (pts.getD (i - 1) default).value ∧
        |pct_change (pts.getD (i - 1) default).value
          (pts.getD i default).value| > t ∧
        i + 1 < pts.length ∧
        (|pct_change (pts.getD i default).value
            (pts.getD (i + 1) default).value| > t ∧
         pct_change (pts.getD (i - 1) default).value (pts.getD i default).value *
           pct_change (pts.getD i default).value
             (pts.getD (i + 1) default).value < 0)
    then i :: badDataIdxs t pts (i + 2)
    else if 0 < (pts.getD (i - 1) default).value ∧
        |pct_change (pts.getD (i - 1) default).value
          (pts.getD i default).value| > t ∧
        i + 1 < pts.length ∧ 2 ≤ i ∧
        (|((pts.getD i default).value -
            ((pts.getD (i - 2) default).value +
             (pts.getD (i + 1) default).value) / 2) /
           (((pts.getD (i - 2) default).value +
             (pts.getD (i + 1) default).value) / 2) * 100| > 30 ∧
         |((pts.getD (i - 1) default).value -
            ((pts.getD (i - 2) default).value +
             (pts.getD (i + 1) default).value) / 2) /
           (((pts.getD (i - 2) default).value +
             (pts.getD (i + 1) default).value) / 2) * 100| < 15)
    then i :: badDataIdxs t pts (i + 2)
    else badDataIdxs t pts (i + 1)
  else []
termination_by pts.length - i

/-- The indices filter_bad_data marks in one country's sorted series
(lines 87-146): series shorter than 3 points are skipped, the loop starts
at index 1. -/
def badDataCountry (t : ℚ) (pts : List DataPoint) : List Nat :=
  if pts.length < 3 then [] else badDataIdxs t pts 1

/-- Helper: every index the filter_bad_data loop marks, started at any
index of at least 1, has a predecessor and a successor. -/
theorem badDataIdxs_interior (t : ℚ) (pts : List DataPoint) :
    ∀ (fuel i : Nat), pts.length - i ≤ fuel → 1 ≤ i →
      ∀ j ∈ badDataIdxs t pts i, 1 ≤ j ∧ j + 1 < pts.length := by
  intro fuel
  induction fuel with
  | zero =>
    intro i hf h1 j hj
    unfold badDataIdxs at hj
    rw [dif_neg (by omega)] at hj
    cases hj
  | succ m ih =>
    intro i hf h1 j hj
    unfold badDataIdxs at hj
    by_cases hlt : i < pts.length
    · rw [dif_pos hlt] at hj
      split at hj
      next hcond =>
        rcases List.mem_cons.mp hj with rfl | hj2
        · exact ⟨h1, hcond.2.2.1⟩
        · exact ih (i + 2) (by omega) (by omega) j hj2
      next =>
        split at hj
        next hcond =>
          rcases List.mem_cons.mp hj with rfl | hj2
          · exact ⟨h1, hcond.2.2.1⟩
          · exact ih (i + 2) (by omega) (by omega) j hj2
        next =>
          exact ih (i + 1) (by omega) (by omega) j hj
    · rw [dif_neg hlt] at hj
      cases hj

/-- C9: neither point-outlier heuristic ever marks the first or last
observation of a country's sorted series: every index marked by
filter_outliers_selective and every index marked by filter_bad_data has
both a predecessor and a successor. -/
theorem C9_endpoints_never_deleted (t : ℚ) (pts : List DataPoint) :
    (∀ j ∈ outlierIdxs t pts, 1 ≤ j ∧ j + 1 < pts.length) ∧
    (∀ j ∈ badDataCountry t pts, 1 ≤ j ∧ j + 1 < pts.length) := by
  constructor
  · intro j hj
    unfold outlierIdxs at hj
    by_cases hlen : pts.length < 3
    · rw [if_pos hlen] at hj
      cases hj
    · rw [if_neg hlen] at hj
      simp only [List.mem_filter, List.mem_map, List.mem_range] at hj
      obtain ⟨⟨a, ha, rfl⟩, -⟩ := hj
      omega
  · intro j hj
    unfold badDataCountry at hj
    by_cases hlen : pts.length < 3
    · rw [if_pos hlen] at hj
      cases hj
    · rw [if_neg hlen] at hj
      exact badDataIdxs_interior t pts pts.length 1 (by omega) (by omega) j hj

/-- C9 witness: in the concrete series (100, 150, 100) the marked index 1
is interior. -/
theorem C9_witness :
    (1 : Nat) ≤ 1 ∧ 1 + 1 <
      ([⟨"2000-Q1", 100⟩, ⟨"2000-Q2", 150⟩, ⟨"2000-Q3", 100⟩] :
        List DataPoint).length :=
  (C9_endpoints_never_deleted 20
    [⟨"2000-Q1", 100⟩, ⟨"2000-Q2", 150⟩, ⟨"2000-Q3", 100⟩]).1 1
    (by
      norm_num [outlierIdxs, isOutlierTriple, pct_change, List.range_succ,
        List.getD_cons_succ, List.getD_cons_zero])

/-! ## Dry-run behaviour of the three deletion filters -/

/-- The countries of a metric, deduplicated in first-appearance order of
the country-ordered SELECT (the iteration order of the country_data
dict each script builds). -/
def countriesFor (db : List Row) (metric : String) : List String :=
  ((db.filter (fun r => decide (r.metric_name = metric))).map
    (fun r => r.country)).eraseDups

/-- The (metric, country, time_period) keys filter_outliers_selective
collects for deletion over all requested metrics
(filter_outliers_selective.py lines 55-166). -/
def outlierDeletionKeys (db : List Row) (t : ℚ) (metrics : List String) :
    List (String × String × String) :=
  metrics.flatMap (fun m =>
    (countriesFor db m).flatMap (fun c =>
      (outlierIdxs t (seriesFor db m c)).map (fun i =>
        (m, c, ((seriesFor db m c).getD i default).time_period))))

/-- The (metric, country, time_period) keys filter_bad_data collects for
deletion (filter_bad_data.py lines 60-163). -/
def badDataDeletionKeys (db : List Row) (t : ℚ) (metrics : List String) :
    List (String × String × String) :=
  metrics.flatMap (fun m =>
    (countriesFor db m).flatMap (fun c =>
      (badDataCountry t (seriesFor db m c)).map (fun i =>
        (m, c, ((seriesFor db m c).getD i default).time_period))))

/-- The (country, time_period) keys filter_level_shifts collects for
deletion for its single metric (filter_level_shifts.py lines 69-141). -/
def levelShiftDeletionKeys (db : List Row) (t : ℚ) (metric : String) :
    List (String × String) :=
  (countriesFor db metric).flatMap (fun c =>
    (levelShiftPeriods t (seriesFor db metric c)).map (fun p => (c, p)))

/-- Result of one filter run: the final table and the returned count. -/
structure FilterRunResult where
  db : List Row
  ret : Nat
deriving DecidableEq

/-- filter_outliers_selective at the database level (lines 19-206): live
runs DELETE each collected key and commit; dry runs leave the table
untouched; both return the number of collected deletions. -/
def filter_outliers_selective (db : List Row) (t : ℚ) (metrics : List String)
    (dry_run : Bool) : FilterRunResult :=
  if dry_run then ⟨db, (outlierDeletionKeys db t metrics).length⟩
  else
    ⟨db.filter (fun r => decide (¬ (r.metric_name, r.country, r.time_period) ∈
        outlierDeletionKeys db t metrics)),
      (outlierDeletionKeys db t metrics).length⟩

/-- filter_bad_data at the database level (lines 20-201): live runs
DELETE each collected key (counting one per candidate) and commit; dry
runs leave the table untouched and report the candidate count. -/
def filter_bad_data (db : List Row) (t : ℚ) (metrics : List String)
    (dry_run : Bool) : FilterRunResult :=
  if dry_run then ⟨db, (badDataDeletionKeys db t metrics).length⟩
  else
    ⟨db.filter (fun r => decide (¬ (r.metric_name, r.country, r.time_period) ∈
        badDataDeletionKeys db t metrics)),
      (badDataDeletionKeys db t metrics).length⟩

/-- filter_level_shifts at the database level (lines 19-183): live runs
DELETE each collected (country, period) for the metric and commit; dry
runs leave the table untouched and report the candidate count. -/
def filter_level_shifts (db : List Row) (t : ℚ) (metric : String)
    (dry_run : Bool) : FilterRunResult :=
  if dry_run then ⟨db, (levelShiftDeletionKeys db t metric).length⟩
  else
    ⟨db.filter (fun r => decide (¬ (r.metric_name = metric ∧
        (r.country, r.time_period) ∈ levelShiftDeletionKeys db t metric))),
      (levelShiftDeletionKeys db t metric).length⟩

/-- C10: called with dry_run = true, each of the three filters leaves
every row of the table unchanged and returns the number of observations
the live run with the same arguments targets for deletion (the live run
deletes exactly the collected keys and returns that same count). -/
theorem C10_dry_run (db : List Row) (t : ℚ) (metrics : List String)
    (metric : String) :
    (filter_bad_data db t metrics true).db = db ∧
    (filter_bad_data db t metrics true).ret =
      (badDataDeletionKeys db t metrics).length ∧
    (filter_bad_data db t metrics false).ret =
      (badDataDeletionKeys db t metrics).length ∧
    (filter_outliers_selective db t metrics true).db = db ∧
    (filter_outliers_selective db t metrics true).ret =
      (outlierDeletionKeys db t metrics).length ∧
    (filter_outliers_selective db t metrics false).ret =
      (outlierDeletionKeys db t metrics).length ∧
    (filter_level_shifts db t metric true).db = db ∧
    (filter_level_shifts db t metric true).ret =
      (levelShiftDeletionKeys db t metric).length ∧
    (filter_level_shifts db t metric false).ret =
      (levelShiftDeletionKeys db t metric).length :=
  ⟨rfl, rfl, rfl, rfl, rfl, rfl, rfl, rfl, rfl⟩

end FDV

